import Mathlib

/-!
Verification development for the algorithmic-tradebot repository.

The Python sources are embedded shallowly:
* `BollingerBandBreakout` models `src/Backtest/test1/bb_breakout.py`
  (the per-bar method `next` and the callback `notify_order`).
* `MovingAverageCrossStrategy` models `src/Backtest/test_template.py`.
* `DataCollector` models `src/Backtest/datasets/data_collection.py`
  (`validate_data`, `handle_missing_data`, `_fetch_yahoo`).
* `OptRecord` and the sorting functions model `print_optimization_results`
  in `bb_breakout.py`.

Prices, cash and indicator values are embedded as rationals; dates as
integers counting calendar days; position sizes as integers.  Python
`int(...)` truncation toward zero is `pyInt`.  Python `list.sort` with
`reverse=True` is a stable descending sort, embedded as Mathlib
`List.insertionSort` with the reflexive-total comparison used below.
-/

/-- Python `int(q)` on an exact rational: truncation toward zero. -/
def pyInt (q : ℚ) : ℤ := if 0 ≤ q then ⌊q⌋ else ⌈q⌉

/-! ## Shared strategy-state model

Both strategy classes keep `self.order` (a pending-order marker that is
`None` or an order object; only its truthiness is ever read), and
`self.buy_price` / `self.buy_comm` which are `None` until a buy completes.
-/

/-- Order statuses the strategies name: `order.Submitted`, `order.Accepted`,
`order.Completed`, `order.Canceled`, `order.Margin`, `order.Rejected`. -/
inductive OrderStatus where
  | Submitted
  | Accepted
  | Completed
  | Canceled
  | Margin
  | Rejected
deriving DecidableEq

/-- Terminal order states per the spec state machine: everything other than
the pending notifications `Submitted` / `Accepted`. -/
def OrderStatus.isTerminal : OrderStatus → Bool
  | .Completed => true
  | .Canceled => true
  | .Margin => true
  | .Rejected => true
  | .Submitted => false
  | .Accepted => false

/-- Side of an order, read via `order.isbuy()` / `order.issell()`. -/
inductive OrderSide where
  | buy
  | sell
deriving DecidableEq

/-- The information `notify_order` reads from the notified order. -/
structure OrderNotice where
  status : OrderStatus
  side : OrderSide
  executed_price : ℚ
  executed_comm : ℚ
deriving DecidableEq

/-- What one call to `next` emits: nothing, `self.buy(size=...)`, or
`self.sell(size=...)`.  The two sell branches are distinguished (they log
distinct messages: a middle-band / crossover exit vs a stop loss). -/
inductive TradeAction where
  | hold
  | buyOrder (size : ℤ)
  | sellSignal (size : ℤ)
  | sellStop (size : ℤ)
deriving DecidableEq

/-- Whether an action is a sell of either kind. -/
def TradeAction.isSell : TradeAction → Bool
  | .sellSignal _ => true
  | .sellStop _ => true
  | _ => false

/-- The mutable per-strategy state: `self.order` (pending marker,
modelled by its truthiness), `self.buy_price`, `self.buy_comm`. -/
structure StratState where
  order : Bool
  buy_price : Option ℚ
  buy_comm : Option ℚ
deriving DecidableEq

/-- State set up in `__init__`: no pending order, no recorded buy. -/
def StratState.init : StratState := ⟨false, Option.none, Option.none⟩

namespace BollingerBandBreakout

/-- Strategy parameters of `BollingerBandBreakout` (the `printlog` flag only
gates printing and is omitted). -/
structure Params where
  bb_period : ℕ
  bb_dev : ℚ
  stop_loss_pct : ℚ
  position_size_pct : ℚ

/-- The method `BollingerBandBreakout.next`.  Inputs from the feed, the indicator and
the broker: the current close, the upper and middle Bollinger band values,
`self.broker.getcash()`, and the broker position size (`self.position` is
truthy iff the size is nonzero).  Returns the updated strategy state and
the emitted action. -/
def next (p : Params) (s : StratState) (close top mid cash : ℚ) (pos : ℤ) :
    StratState × TradeAction :=
  if s.order then (s, TradeAction.hold)
  else if pos = 0 then
    if close > top then
      let size := pyInt (cash * p.position_size_pct / close)
      if size > 0 then ({ s with order := true }, TradeAction.buyOrder size)
      else (s, TradeAction.hold)
    else (s, TradeAction.hold)
  else if close < mid then ({ s with order := true }, TradeAction.sellSignal pos)
  else
    match s.buy_price with
    | Option.some bp =>
        if bp = 0 then (s, TradeAction.hold)
        else if (close - bp) / bp ≤ -p.stop_loss_pct then
          ({ s with order := true }, TradeAction.sellStop pos)
        else (s, TradeAction.hold)
    | Option.none => (s, TradeAction.hold)

/-- The callback `BollingerBandBreakout.notify_order`: returns unchanged on
`Submitted`/`Accepted`; records `buy_price`/`buy_comm` when a buy
completes; in every non-pending case finally sets `self.order = None`. -/
def notify_order (s : StratState) (o : OrderNotice) : StratState :=
  if o.status = OrderStatus.Submitted ∨ o.status = OrderStatus.Accepted then s
  else
    let s1 :=
      if o.status = OrderStatus.Completed ∧ o.side = OrderSide.buy then
        { s with buy_price := Option.some o.executed_price,
                 buy_comm := Option.some o.executed_comm }
      else s
    { s1 with order := false }

end BollingerBandBreakout

namespace MovingAverageCrossStrategy

/-- Strategy parameters of `MovingAverageCrossStrategy` (`printlog`
omitted as above). -/
structure Params where
  fast_period : ℕ
  slow_period : ℕ
  stop_loss_pct : ℚ
  position_size_pct : ℚ

/-- The method `MovingAverageCrossStrategy.next`.  `crossover` is the current value of
the `bt.indicators.CrossOver(fast_ma, slow_ma)` line. -/
def next (p : Params) (s : StratState) (close crossover cash : ℚ) (pos : ℤ) :
    StratState × TradeAction :=
  if s.order then (s, TradeAction.hold)
  else if pos = 0 then
    if crossover > 0 then
      let size := pyInt (cash * p.position_size_pct / close)
      if size > 0 then ({ s with order := true }, TradeAction.buyOrder size)
      else (s, TradeAction.hold)
    else (s, TradeAction.hold)
  else if crossover < 0 then ({ s with order := true }, TradeAction.sellSignal pos)
  else
    match s.buy_price with
    | Option.some bp =>
        if bp = 0 then (s, TradeAction.hold)
        else if (close - bp) / bp ≤ -p.stop_loss_pct then
          ({ s with order := true }, TradeAction.sellStop pos)
        else (s, TradeAction.hold)
    | Option.none => (s, TradeAction.hold)

/-- The callback `MovingAverageCrossStrategy.notify_order` (same body as the Bollinger
strategy). -/
def notify_order (s : StratState) (o : OrderNotice) : StratState :=
  if o.status = OrderStatus.Submitted ∨ o.status = OrderStatus.Accepted then s
  else
    let s1 :=
      if o.status = OrderStatus.Completed ∧ o.side = OrderSide.buy then
        { s with buy_price := Option.some o.executed_price,
                 buy_comm := Option.some o.executed_comm }
      else s
    { s1 with order := false }

end MovingAverageCrossStrategy

/-! ## DataCollector: `validate_data`, `handle_missing_data`, `_fetch_yahoo` -/

namespace DataCollector

/-- One OHLC row of the collected frame, as read by the price checks of
`validate_data`. -/
structure PriceRow where
  open_ : ℚ
  high : ℚ
  low : ℚ
  close : ℚ
deriving DecidableEq

/-- The per-row boolean of the OHLC-relationship check in `validate_data`:
`(high < low) | (high < open) | (high < close) | (low > open) | (low > close)`. -/
def ohlcViolation (r : PriceRow) : Bool :=
  (r.high < r.low) || (r.high < r.open_) || (r.high < r.close) ||
    (r.low > r.open_) || (r.low > r.close)

/-- The count `invalid_ohlc` in `validate_data`: the sum of the boolean column, i.e.
the number of rows whose OHLC relationship check fires. -/
def invalid_ohlc (data : List PriceRow) : ℕ := (data.filter ohlcViolation).length

/-- One row of the frame as read by the timestamp-gap check: the symbol
column and the date (a calendar day number). -/
structure DataRow where
  symbol : String
  date : ℤ
deriving DecidableEq

/-- The gap threshold `pd.Timedelta(days=7)` hard-coded in `validate_data`
(the default of the spec run configuration). -/
def gap_threshold_days : ℤ := 7

/-- Consecutive differences of a column, as produced by `Series.diff()`
(the leading `NaT` cell never satisfies a `>` comparison and is dropped). -/
def dateDiffs : List ℤ → List ℤ
  | [] => []
  | [_] => []
  | a :: b :: rest => (b - a) :: dateDiffs (b :: rest)

/-- The sort of the frame by the date column, restricted to that column: sorting the
dates ascending. -/
def sortDates (dates : List ℤ) : List ℤ :=
  List.insertionSort (fun a b : ℤ => a ≤ b) dates

/-- The sort of the whole frame by the date column: rows ordered by
ascending date. -/
def sortRows (rows : List DataRow) : List DataRow :=
  List.insertionSort (fun a b : DataRow => a.date ≤ b.date) rows

/-- Maximum of a list, as `Series.max()` over the flagged gaps. -/
def listMax : List ℤ → Option ℤ
  | [] => Option.none
  | d :: rest =>
    match listMax rest with
    | Option.none => Option.some d
    | Option.some m => Option.some (max d m)

/-- The `data_gaps` issue record appended by `validate_data` when at least
one gap exceeds the threshold: its `count` and `max_gap` fields. -/
structure GapIssue where
  count : ℕ
  max_gap : ℤ
deriving DecidableEq

/-- From the diffs of a sorted date column: keep the deltas strictly above
the threshold (`date_diffs > pd.Timedelta(days=7)`). -/
def flaggedGaps (sortedDates : List ℤ) : List ℤ :=
  (dateDiffs sortedDates).filter (fun d => gap_threshold_days < d)

/-- Build the optional issue record: present iff some gap was flagged. -/
def mkGapIssue (lg : List ℤ) : Option GapIssue :=
  match listMax lg with
  | Option.none => Option.none
  | Option.some m => Option.some ⟨lg.length, m⟩

/-- The timestamp-gap check of `validate_data` on a bare date column:
sort, diff, flag deltas above the threshold, report count and maximum. -/
def dataGapsIssue (dates : List ℤ) : Option GapIssue :=
  mkGapIssue (flaggedGaps (sortDates dates))

/-- The timestamp-gap check as actually run on a multi-symbol frame: the
whole frame is sorted by date and the single date column is diffed,
regardless of the symbol column. -/
def frameGapsIssue (rows : List DataRow) : Option GapIssue :=
  mkGapIssue (flaggedGaps ((sortRows rows).map DataRow.date))

/-- Index and value of the nearest valid cell strictly before position `i`
of a numeric column (`Option.none` marks a missing cell). -/
def prevValid (col : List (Option ℚ)) (i : ℕ) : Option (ℕ × ℚ) :=
  ((List.range i).filterMap
    (fun j => (col.getD j Option.none).map (fun v => (j, v)))).getLast?

/-- Index and value of the nearest valid cell strictly after position `i`. -/
def nextValid (col : List (Option ℚ)) (i : ℕ) : Option (ℕ × ℚ) :=
  ((List.range col.length).filterMap
    (fun j =>
      if i < j then (col.getD j Option.none).map (fun v => (j, v))
      else Option.none)).head?

/-- The interpolate branch of `handle_missing_data`, i.e. pandas
pandas linear interpolation on one numeric column: a missing
cell with valid neighbours on both sides becomes the linear interpolation
between them; a missing cell after the last valid cell is filled with that
last valid value (the default forward limit direction); a missing cell
before the first valid cell stays missing.  No error is ever raised. -/
def interpolate_linear (col : List (Option ℚ)) : List (Option ℚ) :=
  (List.range col.length).map (fun i =>
    match col.getD i Option.none with
    | Option.some v => Option.some v
    | Option.none =>
      match prevValid col i, nextValid col i with
      | Option.some ja, Option.some kb =>
          Option.some (ja.2 + (kb.2 - ja.2) * ((i : ℚ) - (ja.1 : ℚ)) /
            ((kb.1 : ℚ) - (ja.1 : ℚ)))
      | Option.some ja, Option.none => Option.some ja.2
      | Option.none, _ => Option.none)

/-- The linear-interpolate repair as the spec claims it, for comparison
with `interpolate_linear`: fill between the nearest valid neighbours on
each side and fail with `InsufficientData` whenever a gap touches a series
boundary with no valid neighbour on one side. -/
def interpolate_claimed (col : List (Option ℚ)) : Except String (List ℚ) :=
  (List.range col.length).mapM (fun i =>
    match col.getD i Option.none with
    | Option.some v => Except.ok v
    | Option.none =>
      match prevValid col i, nextValid col i with
      | Option.some ja, Option.some kb =>
          Except.ok (ja.2 + (kb.2 - ja.2) * ((i : ℚ) - (ja.1 : ℚ)) /
            ((kb.1 : ℚ) - (ja.1 : ℚ)))
      | _, _ => Except.error ("InsufficientData"))

/-- What the provider (`yf.Ticker(symbol).history(...)`) returns for one
symbol: a frame of rows, or a raised exception. -/
inductive FetchOutcome (α : Type) where
  | ok (df : List α)
  | err (msg : String)

/-- A symbol succeeds when its download neither raises nor returns an
empty frame. -/
def FetchOutcome.succeeds {α : Type} : FetchOutcome α → Bool
  | .ok df => !df.isEmpty
  | .err _ => false

/-- The per-symbol loop of `_fetch_yahoo`: an exception is logged and the
loop continues; an empty frame is logged and skipped; otherwise the frame
is appended to `data_frames`. -/
def collectFrames {α : Type} (provider : String → FetchOutcome α) :
    List String → List (List α)
  | [] => []
  | s :: rest =>
    match provider s with
    | FetchOutcome.err _ => collectFrames provider rest
    | FetchOutcome.ok df =>
        if df.isEmpty then collectFrames provider rest
        else df :: collectFrames provider rest

/-- The batch fetch `_fetch_yahoo`: run the loop over all symbols; raise
`ValueError("No data was successfully fetched")` when no frame was
collected, else return `pd.concat(data_frames)`. -/
def fetch_yahoo {α : Type} (provider : String → FetchOutcome α)
    (symbols : List String) : Except String (List α) :=
  let frames := collectFrames provider symbols
  if frames.isEmpty then Except.error ("No data was successfully fetched")
  else Except.ok frames.flatten

/-- The frame kept by the loop for one symbol, if any: `Option.none` when
the download raised or returned an empty frame. -/
def FetchOutcome.kept {α : Type} : FetchOutcome α → Option (List α)
  | FetchOutcome.ok df => if df.isEmpty then Option.none else Option.some df
  | FetchOutcome.err _ => Option.none

instance : IsTotal DataRow (fun a b => a.date ≤ b.date) :=
  ⟨fun a b => le_total a.date b.date⟩

instance : IsTrans DataRow (fun a b => a.date ≤ b.date) :=
  ⟨fun _ _ _ h1 h2 => le_trans h1 h2⟩

end DataCollector

/-! ## `print_optimization_results` in `bb_breakout.py` -/

/-- One entry of `opt_results`: the swept parameters and the fields the
ranking and report read.  `idx` is the position of the parameter
combination in the optimizer enumeration order (the order of `results`).
Fields not read by the ranking (`sharpe`, `total_trades`, `win_rate`,
`final_value`) are omitted. -/
structure OptRecord where
  idx : ℕ
  bb_period : ℕ
  bb_dev : ℚ
  stop_loss_pct : ℚ
  return_pct : ℚ
  max_dd : ℚ
deriving DecidableEq

/-- The ranking sort of the optimizer results by the return percentage,
with reverse set:
a stable sort descending by total return (Python list sort is stable and
`reverse=True` keeps equal keys in original order), embedded as a stable
insertion sort with the comparison `a` stays before `b` iff
`a.return_pct ≥ b.return_pct`. -/
def sortOptResults (l : List OptRecord) : List OptRecord :=
  List.insertionSort (fun a b : OptRecord => b.return_pct ≤ a.return_pct) l

/-- The printed top-ten list `opt_results[:10]`. -/
def topResults (l : List OptRecord) : List OptRecord :=
  (sortOptResults l).take 10

/-- The recommended combination `opt_results[0]` after sorting. -/
def bestResult (l : List OptRecord) : Option OptRecord :=
  (sortOptResults l).head?

/-- The ranking as the spec claims it, for comparison with
`sortOptResults`: total return descending, ties broken by lower max
drawdown, then by the parameter combination enumerated earlier. -/
def claimedRankSort (l : List OptRecord) : List OptRecord :=
  List.insertionSort
    (fun a b : OptRecord =>
      b.return_pct < a.return_pct ∨
        (a.return_pct = b.return_pct ∧
          (a.max_dd < b.max_dd ∨ (a.max_dd = b.max_dd ∧ a.idx ≤ b.idx)))) l

/-- The ranking order the code actually establishes on the sorted results:
strictly higher total return first, and equal returns in enumeration
order. -/
def rankedBefore (a b : OptRecord) : Prop :=
  b.return_pct < a.return_pct ∨ (a.return_pct = b.return_pct ∧ a.idx < b.idx)

instance : IsTotal OptRecord (fun a b => b.return_pct ≤ a.return_pct) :=
  ⟨fun a b => le_total b.return_pct a.return_pct⟩

instance : IsTrans OptRecord (fun a b => b.return_pct ≤ a.return_pct) :=
  ⟨fun _ _ _ h1 h2 => le_trans h2 h1⟩

/-! ## Helper lemmas -/

theorem pyInt_eq_floor_of_floor_pos {q : ℚ} (h : 0 < ⌊q⌋) : pyInt q = ⌊q⌋ := by
  have hq : (0:ℚ) ≤ q := by
    have h1 : ((0:ℤ):ℚ) ≤ q := Int.le_floor.mp h.le
    exact_mod_cast h1
  simp [pyInt, hq]

theorem pyInt_pos_cases {q : ℚ} (h : 0 < pyInt q) : pyInt q = ⌊q⌋ ∧ 0 < ⌊q⌋ := by
  by_cases hq : (0:ℚ) ≤ q
  · refine ⟨by simp [pyInt, hq], ?_⟩
    simpa [pyInt, hq] using h
  · exfalso
    have hle : q ≤ 0 := (lt_of_not_le hq).le
    have hc : ⌈q⌉ ≤ 0 := Int.ceil_le.mpr (by exact_mod_cast hle)
    have hpy : pyInt q = ⌈q⌉ := by simp [pyInt, hq]
    rw [hpy] at h
    exact absurd h (not_lt.mpr hc)

theorem pyInt_nonpos_of_floor_nonpos {q : ℚ} (h : ⌊q⌋ ≤ 0) : pyInt q ≤ 0 := by
  by_cases hq : (0:ℚ) ≤ q
  · simpa [pyInt, hq] using h
  · have hle : q ≤ 0 := (lt_of_not_le hq).le
    have hc : ⌈q⌉ ≤ 0 := Int.ceil_le.mpr (by exact_mod_cast hle)
    simpa [pyInt, hq] using hc

/-! ## C3 and C4 -/

/-- C3: while a previously emitted order is unresolved (`self.order` set),
`next` emits no new order and leaves the state unchanged, in both
strategies; `notify_order` clears the pending marker exactly on a terminal
status; and `next` sets the pending marker exactly when it emits an
order. -/
theorem pending_order_invariant :
    (∀ (p : BollingerBandBreakout.Params) (s : StratState)
        (close top mid cash : ℚ) (pos : ℤ), s.order = true →
        BollingerBandBreakout.next p s close top mid cash pos =
          (s, TradeAction.hold)) ∧
    (∀ (p : MovingAverageCrossStrategy.Params) (s : StratState)
        (close crossover cash : ℚ) (pos : ℤ), s.order = true →
        MovingAverageCrossStrategy.next p s close crossover cash pos =
          (s, TradeAction.hold)) ∧
    (∀ (s : StratState) (o : OrderNotice), s.order = true →
        ((BollingerBandBreakout.notify_order s o).order = false ↔
          o.status.isTerminal = true)) ∧
    (∀ (s : StratState) (o : OrderNotice), s.order = true →
        ((MovingAverageCrossStrategy.notify_order s o).order = false ↔
          o.status.isTerminal = true)) ∧
    (∀ (p : BollingerBandBreakout.Params) (s : StratState)
        (close top mid cash : ℚ) (pos : ℤ),
        ((BollingerBandBreakout.next p s close top mid cash pos).1.order = true ↔
          (s.order = true ∨
            (BollingerBandBreakout.next p s close top mid cash pos).2 ≠
              TradeAction.hold))) ∧
    (∀ (p : MovingAverageCrossStrategy.Params) (s : StratState)
        (close crossover cash : ℚ) (pos : ℤ),
        ((MovingAverageCrossStrategy.next p s close crossover cash pos).1.order = true ↔
          (s.order = true ∨
            (MovingAverageCrossStrategy.next p s close crossover cash pos).2 ≠
              TradeAction.hold))) := by
  refine ⟨?_, ?_, ?_, ?_, ?_, ?_⟩
  · intro p s close top mid cash pos h
    simp [BollingerBandBreakout.next, h]
  · intro p s close crossover cash pos h
    simp [MovingAverageCrossStrategy.next, h]
  · intro s o h
    rcases o with ⟨st, side, ep, ec⟩
    cases st <;> simp [BollingerBandBreakout.notify_order, OrderStatus.isTerminal, h]
  · intro s o h
    rcases o with ⟨st, side, ep, ec⟩
    cases st <;> simp [MovingAverageCrossStrategy.notify_order, OrderStatus.isTerminal, h]
  · intro p s close top mid cash pos
    rcases s with ⟨ord, bp, bc⟩
    cases ord <;> cases bp <;>
      simp only [BollingerBandBreakout.next] <;> split_ifs <;> simp_all
  · intro p s close crossover cash pos
    rcases s with ⟨ord, bp, bc⟩
    cases ord <;> cases bp <;>
      simp only [MovingAverageCrossStrategy.next] <;> split_ifs <;> simp_all

/-- Witness for C3 at a concrete pending state. -/
theorem pending_order_invariant_witness :
    BollingerBandBreakout.next ⟨20, 2, 3, 95⟩ ⟨true, Option.none, Option.none⟩
        10 9 8 100 0 = (⟨true, Option.none, Option.none⟩, TradeAction.hold) :=
  pending_order_invariant.1 ⟨20, 2, 3, 95⟩ ⟨true, Option.none, Option.none⟩
    10 9 8 100 0 rfl

/-- C4: the OHLC check of `validate_data` counts a row exactly when
`high < low`, `high < open`, `high < close`, `low > open`, or
`low > close`; rows with `low ≤ open ≤ high` and `low ≤ close ≤ high` are
never counted. -/
theorem ohlc_violation_spec :
    (∀ r : DataCollector.PriceRow,
        DataCollector.ohlcViolation r = true ↔
          (r.high < r.low ∨ r.high < r.open_ ∨ r.high < r.close ∨
            r.low > r.open_ ∨ r.low > r.close)) ∧
    ∀ data : List DataCollector.PriceRow,
      (∀ r ∈ data, r.low ≤ r.open_ ∧ r.open_ ≤ r.high ∧
          r.low ≤ r.close ∧ r.close ≤ r.high) →
      DataCollector.invalid_ohlc data = 0 := by
  constructor
  · intro r
    simp [DataCollector.ohlcViolation, or_assoc]
  · intro data h
    unfold DataCollector.invalid_ohlc
    rw [List.length_eq_zero, List.filter_eq_nil_iff]
    intro r hr
    obtain ⟨h1, h2, h3, h4⟩ := h r hr
    simp only [DataCollector.ohlcViolation, Bool.or_eq_true, decide_eq_true_eq,
      not_or, gt_iff_lt, not_lt]
    exact ⟨⟨⟨⟨h1.trans h2, h2⟩, h4⟩, h1⟩, h3⟩

/-- Witness for C4 on a concrete well-formed two-row frame. -/
theorem ohlc_violation_spec_witness :
    DataCollector.invalid_ohlc [⟨1, 3, 1, 2⟩, ⟨2, 2, 2, 2⟩] = 0 :=
  ohlc_violation_spec.2 [⟨1, 3, 1, 2⟩, ⟨2, 2, 2, 2⟩] (by decide)

/-- Inversion: the only way `BollingerBandBreakout.next` emits a buy. -/
theorem bb_next_buy_inv {p : BollingerBandBreakout.Params} {s : StratState}
    {close top mid cash : ℚ} {pos : ℤ} {sz : ℤ}
    (heq : (BollingerBandBreakout.next p s close top mid cash pos).2 =
      TradeAction.buyOrder sz) :
    s.order = false ∧ pos = 0 ∧ close > top ∧
      sz = pyInt (cash * p.position_size_pct / close) ∧ 0 < sz := by
  rcases s with ⟨ord, bp, bc⟩
  cases ord with
  | true => simp [BollingerBandBreakout.next] at heq
  | false =>
    by_cases hpos : pos = 0
    · by_cases hgt : close > top
      · by_cases hsz : pyInt (cash * p.position_size_pct / close) > 0
        · simp [BollingerBandBreakout.next, hpos, hgt, hsz] at heq
          exact ⟨rfl, hpos, hgt, by omega, by omega⟩
        · simp [BollingerBandBreakout.next, hpos, hgt, hsz] at heq
      · simp [BollingerBandBreakout.next, hpos, hgt] at heq
    · cases bp with
      | none =>
        by_cases hmid : close < mid <;>
          simp [BollingerBandBreakout.next, hpos, hmid] at heq
      | some b =>
        by_cases hmid : close < mid
        · simp [BollingerBandBreakout.next, hpos, hmid] at heq
        · by_cases hz : b = 0
          · simp [BollingerBandBreakout.next, hpos, hmid, hz] at heq
          · by_cases hsl : (close - b) / b ≤ -p.stop_loss_pct <;>
              simp [BollingerBandBreakout.next, hpos, hmid, hz, hsl] at heq

/-- Inversion: the only way `BollingerBandBreakout.next` emits a stop-loss
sell. -/
theorem bb_next_sellStop_inv {p : BollingerBandBreakout.Params}
    {s : StratState} {close top mid cash : ℚ} {pos : ℤ} {sz : ℤ}
    (heq : (BollingerBandBreakout.next p s close top mid cash pos).2 =
      TradeAction.sellStop sz) :
    s.order = false ∧ pos ≠ 0 ∧ ¬ close < mid ∧ sz = pos ∧
      ∃ bp, s.buy_price = Option.some bp ∧ bp ≠ 0 ∧
        (close - bp) / bp ≤ -p.stop_loss_pct := by
  rcases s with ⟨ord, bp, bc⟩
  cases ord with
  | true => simp [BollingerBandBreakout.next] at heq
  | false =>
    by_cases hpos : pos = 0
    · by_cases hgt : close > top
      · by_cases hsz : pyInt (cash * p.position_size_pct / close) > 0 <;>
          simp [BollingerBandBreakout.next, hpos, hgt, hsz] at heq
      · simp [BollingerBandBreakout.next, hpos, hgt] at heq
    · cases bp with
      | none =>
        by_cases hmid : close < mid <;>
          simp [BollingerBandBreakout.next, hpos, hmid] at heq
      | some b =>
        by_cases hmid : close < mid
        · simp [BollingerBandBreakout.next, hpos, hmid] at heq
        · by_cases hz : b = 0
          · simp [BollingerBandBreakout.next, hpos, hmid, hz] at heq
          · by_cases hsl : (close - b) / b ≤ -p.stop_loss_pct
            · simp [BollingerBandBreakout.next, hpos, hmid, hz, hsl] at heq
              exact ⟨rfl, hpos, hmid, heq.symm, b, rfl, hz, hsl⟩
            · simp [BollingerBandBreakout.next, hpos, hmid, hz, hsl] at heq

/-- Inversion: the only way `MovingAverageCrossStrategy.next` emits a
buy. -/
theorem ma_next_buy_inv {p : MovingAverageCrossStrategy.Params}
    {s : StratState} {close crossover cash : ℚ} {pos : ℤ} {sz : ℤ}
    (heq : (MovingAverageCrossStrategy.next p s close crossover cash pos).2 =
      TradeAction.buyOrder sz) :
    s.order = false ∧ pos = 0 ∧ crossover > 0 ∧
      sz = pyInt (cash * p.position_size_pct / close) ∧ 0 < sz := by
  rcases s with ⟨ord, bp, bc⟩
  cases ord with
  | true => simp [MovingAverageCrossStrategy.next] at heq
  | false =>
    by_cases hpos : pos = 0
    · by_cases hgt : crossover > 0
      · by_cases hsz : pyInt (cash * p.position_size_pct / close) > 0
        · simp [MovingAverageCrossStrategy.next, hpos, hgt, hsz] at heq
          exact ⟨rfl, hpos, hgt, by omega, by omega⟩
        · simp [MovingAverageCrossStrategy.next, hpos, hgt, hsz] at heq
      · simp [MovingAverageCrossStrategy.next, hpos, hgt] at heq
    · cases bp with
      | none =>
        by_cases hmid : crossover < 0 <;>
          simp [MovingAverageCrossStrategy.next, hpos, hmid] at heq
      | some b =>
        by_cases hmid : crossover < 0
        · simp [MovingAverageCrossStrategy.next, hpos, hmid] at heq
        · by_cases hz : b = 0
          · simp [MovingAverageCrossStrategy.next, hpos, hmid, hz] at heq
          · by_cases hsl : (close - b) / b ≤ -p.stop_loss_pct <;>
              simp [MovingAverageCrossStrategy.next, hpos, hmid, hz, hsl] at heq

/-- Inversion: the only way `MovingAverageCrossStrategy.next` emits a
stop-loss sell. -/
theorem ma_next_sellStop_inv {p : MovingAverageCrossStrategy.Params}
    {s : StratState} {close crossover cash : ℚ} {pos : ℤ} {sz : ℤ}
    (heq : (MovingAverageCrossStrategy.next p s close crossover cash pos).2 =
      TradeAction.sellStop sz) :
    s.order = false ∧ pos ≠ 0 ∧ ¬ crossover < 0 ∧ sz = pos ∧
      ∃ bp, s.buy_price = Option.some bp ∧ bp ≠ 0 ∧
        (close - bp) / bp ≤ -p.stop_loss_pct := by
  rcases s with ⟨ord, bp, bc⟩
  cases ord with
  | true => simp [MovingAverageCrossStrategy.next] at heq
  | false =>
    by_cases hpos : pos = 0
    · by_cases hgt : crossover > 0
      · by_cases hsz : pyInt (cash * p.position_size_pct / close) > 0 <;>
          simp [MovingAverageCrossStrategy.next, hpos, hgt, hsz] at heq
      · simp [MovingAverageCrossStrategy.next, hpos, hgt] at heq
    · cases bp with
      | none =>
        by_cases hmid : crossover < 0 <;>
          simp [MovingAverageCrossStrategy.next, hpos, hmid] at heq
      | some b =>
        by_cases hmid : crossover < 0
        · simp [MovingAverageCrossStrategy.next, hpos, hmid] at heq
        · by_cases hz : b = 0
          · simp [MovingAverageCrossStrategy.next, hpos, hmid, hz] at heq
          · by_cases hsl : (close - b) / b ≤ -p.stop_loss_pct
            · simp [MovingAverageCrossStrategy.next, hpos, hmid, hz, hsl] at heq
              exact ⟨rfl, hpos, hmid, heq.symm, b, rfl, hz, hsl⟩
            · simp [MovingAverageCrossStrategy.next, hpos, hmid, hz, hsl] at heq

/-! ## C1, C2, C9 -/

/-- C1: on a bar with no pending order, `BollingerBandBreakout` emits a buy
exactly when it is flat and the close is strictly above the upper band
(given the computed size is positive, the sizing rule of C2); every
emitted buy has the close strictly above the upper band, so a position is
never opened at or below the upper band value; while in a position a sell
is emitted when the close is below the middle band, or when the recorded
entry price `bp` satisfies `(close - bp) / bp ≤ -stop_loss_pct`. -/
theorem bollinger_entry_exit_spec :
    ∀ (p : BollingerBandBreakout.Params) (s : StratState)
      (close top mid cash : ℚ) (pos : ℤ),
      s.order = false →
      ((pos = 0 → 0 < ⌊cash * p.position_size_pct / close⌋ →
          ((BollingerBandBreakout.next p s close top mid cash pos).2 =
              TradeAction.buyOrder ⌊cash * p.position_size_pct / close⌋ ↔
            close > top)) ∧
        (∀ sz, (BollingerBandBreakout.next p s close top mid cash pos).2 =
            TradeAction.buyOrder sz → pos = 0 ∧ close > top) ∧
        (pos ≠ 0 → close < mid →
          (BollingerBandBreakout.next p s close top mid cash pos).2 =
            TradeAction.sellSignal pos) ∧
        (pos ≠ 0 → ∀ bp, s.buy_price = Option.some bp → bp ≠ 0 →
          (close - bp) / bp ≤ -p.stop_loss_pct →
          ((BollingerBandBreakout.next p s close top mid cash pos).2).isSell =
            true)) := by
  intro p s close top mid cash pos hord
  refine ⟨?_, ?_, ?_, ?_⟩
  · intro hpos hfloor
    constructor
    · intro heq
      exact (bb_next_buy_inv heq).2.2.1
    · intro hgt
      have hq := pyInt_eq_floor_of_floor_pos hfloor
      have hsz : pyInt (cash * p.position_size_pct / close) > 0 := by
        rw [hq]; exact hfloor
      simp [BollingerBandBreakout.next, hord, hpos, hgt, hsz, hq, hfloor]
  · intro sz heq
    exact ⟨(bb_next_buy_inv heq).2.1, (bb_next_buy_inv heq).2.2.1⟩
  · intro hpos hmid
    simp [BollingerBandBreakout.next, hord, hpos, hmid]
  · intro hpos bp hbp hz hsl
    by_cases hmid : close < mid
    · simp [BollingerBandBreakout.next, hord, hpos, hmid, TradeAction.isSell]
    · simp [BollingerBandBreakout.next, hord, hpos, hmid, hbp, hz, hsl,
        TradeAction.isSell]

/-- Witness for C1: a middle-band exit on a concrete in-position bar. -/
theorem bollinger_entry_exit_spec_witness :
    (BollingerBandBreakout.next ⟨20, 2, 3, 95⟩ StratState.init
        5 9 8 100 3).2 = TradeAction.sellSignal 3 :=
  (bollinger_entry_exit_spec ⟨20, 2, 3, 95⟩ StratState.init
    5 9 8 100 3 rfl).2.2.1 (by decide) (by decide)

/-- C2: in both strategies every emitted buy order has size
`⌊position_size_pct * cash / close⌋`, this size is positive, and when the
floor is not positive no buy order is emitted at all. -/
theorem position_sizing_floor_spec :
    (∀ (p : BollingerBandBreakout.Params) (s : StratState)
        (close top mid cash : ℚ) (pos : ℤ) (sz : ℤ),
        (BollingerBandBreakout.next p s close top mid cash pos).2 =
          TradeAction.buyOrder sz →
        sz = ⌊cash * p.position_size_pct / close⌋ ∧ 0 < sz) ∧
    (∀ (p : BollingerBandBreakout.Params) (s : StratState)
        (close top mid cash : ℚ) (pos : ℤ),
        ⌊cash * p.position_size_pct / close⌋ ≤ 0 →
        ∀ sz, (BollingerBandBreakout.next p s close top mid cash pos).2 ≠
          TradeAction.buyOrder sz) ∧
    (∀ (p : MovingAverageCrossStrategy.Params) (s : StratState)
        (close crossover cash : ℚ) (pos : ℤ) (sz : ℤ),
        (MovingAverageCrossStrategy.next p s close crossover cash pos).2 =
          TradeAction.buyOrder sz →
        sz = ⌊cash * p.position_size_pct / close⌋ ∧ 0 < sz) ∧
    (∀ (p : MovingAverageCrossStrategy.Params) (s : StratState)
        (close crossover cash : ℚ) (pos : ℤ),
        ⌊cash * p.position_size_pct / close⌋ ≤ 0 →
        ∀ sz, (MovingAverageCrossStrategy.next p s close crossover cash pos).2 ≠
          TradeAction.buyOrder sz) := by
  refine ⟨?_, ?_, ?_, ?_⟩
  · intro p s close top mid cash pos sz heq
    obtain ⟨-, -, -, hsz, hpos⟩ := bb_next_buy_inv heq
    have := pyInt_pos_cases (hsz ▸ hpos)
    exact ⟨hsz.trans this.1, hpos⟩
  · intro p s close top mid cash pos hfl sz heq
    obtain ⟨-, -, -, hsz, hpos⟩ := bb_next_buy_inv heq
    have hnp := pyInt_nonpos_of_floor_nonpos hfl
    omega
  · intro p s close crossover cash pos sz heq
    obtain ⟨-, -, -, hsz, hpos⟩ := ma_next_buy_inv heq
    have := pyInt_pos_cases (hsz ▸ hpos)
    exact ⟨hsz.trans this.1, hpos⟩
  · intro p s close crossover cash pos hfl sz heq
    obtain ⟨-, -, -, hsz, hpos⟩ := ma_next_buy_inv heq
    have hnp := pyInt_nonpos_of_floor_nonpos hfl
    omega

/-- Witness for C2: with no cash the computed size floors to zero and the
buy signal bar emits no order. -/
theorem position_sizing_floor_spec_witness :
    (BollingerBandBreakout.next ⟨20, 2, 3, 95⟩ StratState.init
        10 9 8 0 0).2 ≠ TradeAction.buyOrder 5 :=
  position_sizing_floor_spec.2.1 ⟨20, 2, 3, 95⟩ StratState.init
    10 9 8 0 0 (by simp) 5

/-- C9: in both strategies a stop-loss sell can be emitted only when the
primary exit did not fire on the same bar and `buy_price` holds a recorded
(nonzero) entry price meeting the stop-loss condition; with
`buy_price = None` no stop-loss sell is ever emitted; and `notify_order`
changes `buy_price` only on a completed buy notification. -/
theorem stop_loss_guard_spec :
    (∀ (p : BollingerBandBreakout.Params) (s : StratState)
        (close top mid cash : ℚ) (pos : ℤ) (sz : ℤ),
        s.buy_price = Option.none →
        (BollingerBandBreakout.next p s close top mid cash pos).2 ≠
          TradeAction.sellStop sz) ∧
    (∀ (p : BollingerBandBreakout.Params) (s : StratState)
        (close top mid cash : ℚ) (pos : ℤ) (sz : ℤ),
        (BollingerBandBreakout.next p s close top mid cash pos).2 =
          TradeAction.sellStop sz →
        ¬ close < mid ∧ ∃ bp, s.buy_price = Option.some bp ∧ bp ≠ 0 ∧
          (close - bp) / bp ≤ -p.stop_loss_pct) ∧
    (∀ (p : MovingAverageCrossStrategy.Params) (s : StratState)
        (close crossover cash : ℚ) (pos : ℤ) (sz : ℤ),
        s.buy_price = Option.none →
        (MovingAverageCrossStrategy.next p s close crossover cash pos).2 ≠
          TradeAction.sellStop sz) ∧
    (∀ (p : MovingAverageCrossStrategy.Params) (s : StratState)
        (close crossover cash : ℚ) (pos : ℤ) (sz : ℤ),
        (MovingAverageCrossStrategy.next p s close crossover cash pos).2 =
          TradeAction.sellStop sz →
        ¬ crossover < 0 ∧ ∃ bp, s.buy_price = Option.some bp ∧ bp ≠ 0 ∧
          (close - bp) / bp ≤ -p.stop_loss_pct) ∧
    (∀ (s : StratState) (o : OrderNotice),
        (BollingerBandBreakout.notify_order s o).buy_price ≠ s.buy_price →
        o.status = OrderStatus.Completed ∧ o.side = OrderSide.buy) ∧
    (∀ (s : StratState) (o : OrderNotice),
        (MovingAverageCrossStrategy.notify_order s o).buy_price ≠ s.buy_price →
        o.status = OrderStatus.Completed ∧ o.side = OrderSide.buy) := by
  refine ⟨?_, ?_, ?_, ?_, ?_, ?_⟩
  · intro p s close top mid cash pos sz hbp heq
    obtain ⟨-, -, -, -, bp, hsome, -⟩ := bb_next_sellStop_inv heq
    rw [hbp] at hsome
    exact Option.noConfusion hsome
  · intro p s close top mid cash pos sz heq
    obtain ⟨-, -, hmid, -, bp, hsome, hz, hsl⟩ := bb_next_sellStop_inv heq
    exact ⟨hmid, bp, hsome, hz, hsl⟩
  · intro p s close crossover cash pos sz hbp heq
    obtain ⟨-, -, -, -, bp, hsome, -⟩ := ma_next_sellStop_inv heq
    rw [hbp] at hsome
    exact Option.noConfusion hsome
  · intro p s close crossover cash pos sz heq
    obtain ⟨-, -, hmid, -, bp, hsome, hz, hsl⟩ := ma_next_sellStop_inv heq
    exact ⟨hmid, bp, hsome, hz, hsl⟩
  · intro s o hne
    rcases o with ⟨st, side, ep, ec⟩
    cases st <;> cases side <;>
      simp [BollingerBandBreakout.notify_order] at hne ⊢
  · intro s o hne
    rcases o with ⟨st, side, ep, ec⟩
    cases st <;> cases side <;>
      simp [MovingAverageCrossStrategy.notify_order] at hne ⊢

/-- Witness for C9: a completed-buy notification at concrete values is the
reason a changed `buy_price` must come from a completed buy. -/
theorem stop_loss_guard_spec_witness :
    OrderNotice.status ⟨OrderStatus.Completed, OrderSide.buy, 100, 1⟩ =
        OrderStatus.Completed ∧
      OrderNotice.side ⟨OrderStatus.Completed, OrderSide.buy, 100, 1⟩ =
        OrderSide.buy :=
  stop_loss_guard_spec.2.2.2.2.1 StratState.init
    ⟨OrderStatus.Completed, OrderSide.buy, 100, 1⟩ (by decide)

/-! ## C7, C10: the timestamp-gap check -/

theorem listMax_eq_none_iff (l : List ℤ) :
    DataCollector.listMax l = Option.none ↔ l = [] := by
  cases l with
  | nil => simp [DataCollector.listMax]
  | cons d rest =>
    simp only [DataCollector.listMax]
    cases DataCollector.listMax rest <;> simp

theorem listMax_mem {l : List ℤ} {m : ℤ}
    (h : DataCollector.listMax l = Option.some m) : m ∈ l := by
  induction l generalizing m with
  | nil => simp [DataCollector.listMax] at h
  | cons d rest ih =>
    simp only [DataCollector.listMax] at h
    cases hr : DataCollector.listMax rest with
    | none =>
      rw [hr] at h
      simp only [Option.some.injEq] at h
      simp [← h]
    | some m2 =>
      rw [hr] at h
      simp only [Option.some.injEq] at h
      rcases max_choice d m2 with hc | hc
    
      · rw [← h, hc]
        simp
      · rw [← h, hc]
        exact List.mem_cons_of_mem _ (ih hr)

theorem listMax_is_ub {l : List ℤ} {m : ℤ}
    (h : DataCollector.listMax l = Option.some m) : ∀ d ∈ l, d ≤ m := by
  induction l generalizing m with
  | nil => simp [DataCollector.listMax] at h
  | cons d rest ih =>
    simp only [DataCollector.listMax] at h
    cases hr : DataCollector.listMax rest with
    | none =>
      rw [hr] at h
      simp only [Option.some.injEq] at h
      have : rest = [] := (listMax_eq_none_iff rest).mp hr
      subst this
      simp [← h]
    | some m2 =>
      rw [hr] at h
      simp only [Option.some.injEq] at h
      intro x hx
      rcases List.mem_cons.mp hx with rfl | hxr
      · rw [← h]; exact le_max_left _ _
      · rw [← h]
        exact le_trans (ih hr x hxr) (le_max_right _ _)

/-- C7: the gap check of `validate_data` sorts the dates (the sorted column
is an ordered permutation of the input), and the reported issue is absent
exactly when every consecutive delta is at most the 7-day threshold; when
present, its count is the number of deltas above the threshold and its
`max_gap` is above the threshold, is one of the consecutive deltas, and
dominates every consecutive delta of the sorted series. -/
theorem timestamp_gap_check_spec :
    ∀ dates : List ℤ,
      (DataCollector.sortDates dates).Perm dates ∧
      List.Pairwise (fun a b : ℤ => a ≤ b) (DataCollector.sortDates dates) ∧
      (DataCollector.dataGapsIssue dates = Option.none ↔
        ∀ d ∈ DataCollector.dateDiffs (DataCollector.sortDates dates),
          d ≤ DataCollector.gap_threshold_days) ∧
      (∀ iss : DataCollector.GapIssue,
        DataCollector.dataGapsIssue dates = Option.some iss →
        iss.count =
          (DataCollector.dateDiffs (DataCollector.sortDates dates)).countP
            (fun d => DataCollector.gap_threshold_days < d) ∧
        DataCollector.gap_threshold_days < iss.max_gap ∧
        iss.max_gap ∈ DataCollector.dateDiffs (DataCollector.sortDates dates) ∧
        ∀ d ∈ DataCollector.dateDiffs (DataCollector.sortDates dates),
          d ≤ iss.max_gap) := by
  intro dates
  refine ⟨List.perm_insertionSort _ dates,
    List.sorted_insertionSort (fun a b : ℤ => a ≤ b) dates, ?_, ?_⟩
  · unfold DataCollector.dataGapsIssue DataCollector.mkGapIssue
      DataCollector.flaggedGaps
    cases hm : DataCollector.listMax
        ((DataCollector.dateDiffs (DataCollector.sortDates dates)).filter
          (fun d => DataCollector.gap_threshold_days < d)) with
    | none =>
      have hnil := (listMax_eq_none_iff _).mp hm
      simp only [hm]
      simp only [List.filter_eq_nil_iff] at hnil
      simp only [true_iff]
      intro d hd
      have := hnil d hd
      simpa using this
    | some m =>
      simp only [hm]
      have hmem := listMax_mem hm
      have h7 : DataCollector.gap_threshold_days < m := by
        have := List.of_mem_filter hmem
        simpa using this
      constructor
      · intro h; exact absurd h (by simp)
      · intro hall
        have := hall m (List.mem_of_mem_filter hmem)
        omega
  · intro iss hiss
    unfold DataCollector.dataGapsIssue DataCollector.mkGapIssue
      DataCollector.flaggedGaps at hiss
    cases hm : DataCollector.listMax
        ((DataCollector.dateDiffs (DataCollector.sortDates dates)).filter
          (fun d => DataCollector.gap_threshold_days < d)) with
    | none => rw [hm] at hiss; exact absurd hiss (by simp)
    | some m =>
      rw [hm] at hiss
      simp only [Option.some.injEq] at hiss
      subst hiss
      have hmem := listMax_mem hm
      have h7 : DataCollector.gap_threshold_days < m := by
        have := List.of_mem_filter hmem
        simpa using this
      refine ⟨?_, h7, List.mem_of_mem_filter hmem, ?_⟩
      · simp [List.countP_eq_length_filter]
      · intro d hd
        show d ≤ m
        by_cases hgt : DataCollector.gap_threshold_days < d
        · exact listMax_is_ub hm d (List.mem_filter.mpr ⟨hd, by simpa using hgt⟩)
        · omega

/-- Witness for C7 on the concrete date column `[0, 20, 10]`. -/
theorem timestamp_gap_check_spec_witness :
    (⟨2, 10⟩ : DataCollector.GapIssue).count =
      (DataCollector.dateDiffs (DataCollector.sortDates [0, 20, 10])).countP
        (fun d => DataCollector.gap_threshold_days < d) ∧
    DataCollector.gap_threshold_days <
      (⟨2, 10⟩ : DataCollector.GapIssue).max_gap ∧
    (⟨2, 10⟩ : DataCollector.GapIssue).max_gap ∈
      DataCollector.dateDiffs (DataCollector.sortDates [0, 20, 10]) ∧
    ∀ d ∈ DataCollector.dateDiffs (DataCollector.sortDates [0, 20, 10]),
      d ≤ (⟨2, 10⟩ : DataCollector.GapIssue).max_gap :=
  (timestamp_gap_check_spec [0, 20, 10]).2.2.2 ⟨2, 10⟩ (by decide)

/-- C10: the gap check pools all instruments: on any frame it equals the
check run on the bare date column with the symbol column ignored, and on
the concrete frame where symbol A has the 10-day within-symbol gap
`0 → 10` while symbol B contributes day 5 inside it, no gap is reported —
although the check on the dates of A alone reports one gap of 10 days. -/
theorem gap_check_pools_symbols :
    (∀ rows : List DataCollector.DataRow,
        DataCollector.frameGapsIssue rows =
          DataCollector.dataGapsIssue (rows.map DataCollector.DataRow.date)) ∧
      DataCollector.frameGapsIssue
          [⟨"A", 0⟩, ⟨"A", 10⟩, ⟨"B", 5⟩] = Option.none ∧
      DataCollector.dataGapsIssue [0, 10] = Option.some ⟨1, 10⟩ := by
  refine ⟨?_, by decide, by decide⟩
  intro rows
  unfold DataCollector.frameGapsIssue DataCollector.dataGapsIssue
  have hdates : (DataCollector.sortRows rows).map DataCollector.DataRow.date =
      DataCollector.sortDates (rows.map DataCollector.DataRow.date) := by
    have hperm : ((DataCollector.sortRows rows).map DataCollector.DataRow.date).Perm
        (DataCollector.sortDates (rows.map DataCollector.DataRow.date)) :=
      ((List.perm_insertionSort _ rows).map _).trans
        (List.perm_insertionSort _ _).symm
    have hs1 : List.Pairwise (fun a b : ℤ => a ≤ b)
        ((DataCollector.sortRows rows).map DataCollector.DataRow.date) :=
      List.pairwise_map.mpr
        (List.sorted_insertionSort (fun a b : DataCollector.DataRow =>
          a.date ≤ b.date) rows)
    have hs2 : List.Pairwise (fun a b : ℤ => a ≤ b)
        (DataCollector.sortDates (rows.map DataCollector.DataRow.date)) :=
      List.sorted_insertionSort (fun a b : ℤ => a ≤ b) _
    exact @List.eq_of_perm_of_sorted ℤ (fun a b : ℤ => a ≤ b)
      ⟨fun a b h1 h2 => le_antisymm h1 h2⟩ _ _ hperm hs1 hs2
  rw [hdates]

/-! ## C8: the batch fetch -/

theorem collectFrames_eq_filterMap {α : Type}
    (provider : String → DataCollector.FetchOutcome α) (symbols : List String) :
    DataCollector.collectFrames provider symbols =
      symbols.filterMap (fun s => (provider s).kept) := by
  induction symbols with
  | nil => rfl
  | cons s rest ih =>
    simp only [DataCollector.collectFrames, List.filterMap_cons]
    cases hp : provider s with
    | err m => simp [DataCollector.FetchOutcome.kept, ih]
    | ok df =>
      by_cases hdf : df.isEmpty <;>
        simp [DataCollector.FetchOutcome.kept, hdf, ih]

theorem collectFrames_ne_nil {α : Type}
    (provider : String → DataCollector.FetchOutcome α) (symbols : List String) :
    ∀ df ∈ DataCollector.collectFrames provider symbols, df ≠ [] := by
  induction symbols with
  | nil => simp [DataCollector.collectFrames]
  | cons s rest ih =>
    simp only [DataCollector.collectFrames]
    cases hp : provider s with
    | err m => exact ih
    | ok df =>
      by_cases hdf : df.isEmpty
      · simp only [hdf, if_true]
        exact ih
      · simp only [hdf, if_false]
        intro d hd
        rcases List.mem_cons.mp hd with rfl | hdr
        · simpa [List.isEmpty_iff] using hdf
        · exact ih d hdr

theorem kept_eq_none_iff {α : Type} (o : DataCollector.FetchOutcome α) :
    (o.kept = Option.none) ↔ o.succeeds = false := by
  cases o with
  | err m => simp [DataCollector.FetchOutcome.kept, DataCollector.FetchOutcome.succeeds]
  | ok df =>
    by_cases hdf : df.isEmpty <;>
      simp [DataCollector.FetchOutcome.kept, DataCollector.FetchOutcome.succeeds, hdf]

/-- C8: `_fetch_yahoo` raises `No data was successfully fetched` exactly
when no symbol succeeds (each failing or empty symbol is skipped); on
success the result is the concatenation of the kept frames of all
successful symbols, in order, and is never empty. -/
theorem batch_fetch_spec :
    ∀ {α : Type} (provider : String → DataCollector.FetchOutcome α)
      (symbols : List String),
      (DataCollector.fetch_yahoo provider symbols =
          Except.error ("No data was successfully fetched") ↔
        ∀ s ∈ symbols, (provider s).succeeds = false) ∧
      (∀ rows, DataCollector.fetch_yahoo provider symbols = Except.ok rows →
        rows = (symbols.filterMap (fun s => (provider s).kept)).flatten ∧
          rows ≠ []) := by
  intro α provider symbols
  have hcf := collectFrames_eq_filterMap provider symbols
  constructor
  · unfold DataCollector.fetch_yahoo
    by_cases hfe : (DataCollector.collectFrames provider symbols).isEmpty
    · simp only [hfe, if_true, true_iff]
      intro s hs
      rw [List.isEmpty_iff, hcf, List.filterMap_eq_nil_iff] at hfe
      exact (kept_eq_none_iff _).mp (hfe s hs)
    · simp only [hfe, if_false]
      constructor
      · intro h; exact absurd h (by simp)
      · intro hall
        exfalso
        apply hfe
        rw [List.isEmpty_iff, hcf, List.filterMap_eq_nil_iff]
        intro s hs
        exact (kept_eq_none_iff _).mpr (hall s hs)
  · intro rows hrows
    unfold DataCollector.fetch_yahoo at hrows
    by_cases hfe : (DataCollector.collectFrames provider symbols).isEmpty
    · rw [if_pos hfe] at hrows
      exact absurd hrows (by simp)
    · rw [if_neg hfe] at hrows
      simp only [Except.ok.injEq] at hrows
      subst hrows
      refine ⟨by rw [hcf], ?_⟩
      intro hnil
      apply hfe
      rw [List.isEmpty_iff]
      cases hc : DataCollector.collectFrames provider symbols with
      | nil => rfl
      | cons d rest =>
        exfalso
        rw [hc] at hnil
        have hd : d = [] ∧ ∀ l ∈ rest, l = [] := by simpa using hnil
        exact collectFrames_ne_nil provider symbols d (by rw [hc]; simp) hd.1

/-- Witness for C8: one failing symbol is skipped, the succeeding symbol
is still processed, and the combined result is its nonempty frame. -/
theorem batch_fetch_spec_witness :
    ([(42 : ℤ)] : List ℤ) =
        ((["BAD", "GOOD"] : List String).filterMap
          (fun s =>
            ((fun t => if t = "BAD" then
                (DataCollector.FetchOutcome.err ("boom") : DataCollector.FetchOutcome ℤ)
              else DataCollector.FetchOutcome.ok [(42 : ℤ)]) s).kept)).flatten ∧
      ([(42 : ℤ)] : List ℤ) ≠ [] :=
  (batch_fetch_spec
      (fun t => if t = "BAD" then
        (DataCollector.FetchOutcome.err ("boom") : DataCollector.FetchOutcome ℤ)
      else DataCollector.FetchOutcome.ok [(42 : ℤ)]) ["BAD", "GOOD"]).2
    [42] (by rfl)

/-! ## C5: the optimizer ranking -/

/-- Counterexample to the claimed drawdown tie-break: two records with
equal total return where the later-enumerated record has the strictly
lower max drawdown.  The code keeps them in enumeration order, while the
claimed ranking would put the lower-drawdown record first. -/
theorem optimizer_drawdown_tiebreak_refuted :
    sortOptResults [⟨0, 20, 2, 3, 10, 30⟩, ⟨1, 25, 2, 3, 10, 5⟩] =
        [⟨0, 20, 2, 3, 10, 30⟩, ⟨1, 25, 2, 3, 10, 5⟩] ∧
      claimedRankSort [⟨0, 20, 2, 3, 10, 30⟩, ⟨1, 25, 2, 3, 10, 5⟩] =
        [⟨1, 25, 2, 3, 10, 5⟩, ⟨0, 20, 2, 3, 10, 30⟩] ∧
      (⟨1, 25, 2, 3, 10, 5⟩ : OptRecord).max_dd <
        (⟨0, 20, 2, 3, 10, 30⟩ : OptRecord).max_dd ∧
      (⟨0, 20, 2, 3, 10, 30⟩ : OptRecord).return_pct =
        (⟨1, 25, 2, 3, 10, 5⟩ : OptRecord).return_pct :=
  ⟨by decide, by decide, by decide, by decide⟩

theorem rankedBefore_orderedInsert (x : OptRecord) (s : List OptRecord)
    (hidx : ∀ e ∈ s, x.idx < e.idx) (hs : s.Pairwise rankedBefore) :
    (List.orderedInsert (fun a b => b.return_pct ≤ a.return_pct) x
      s).Pairwise rankedBefore := by
  induction s with
  | nil => simp
  | cons e es ih =>
    rcases List.pairwise_cons.mp hs with ⟨hRe, hes⟩
    by_cases hle : e.return_pct ≤ x.return_pct
    · rw [List.orderedInsert, if_pos hle]
      refine List.pairwise_cons.mpr ⟨?_, hs⟩
      intro y hy
      rcases List.mem_cons.mp hy with rfl | hyes
      · rcases lt_or_eq_of_le hle with hlt | heq2
        · exact Or.inl hlt
        · exact Or.inr ⟨heq2.symm, hidx y (by simp)⟩
      · have hey := hRe y hyes
        have hyle : y.return_pct ≤ x.return_pct := by
          rcases hey with h | ⟨h, -⟩
          · exact h.le.trans hle
          · exact h.ge.trans hle
        rcases lt_or_eq_of_le hyle with hlt | heq2
        · exact Or.inl hlt
        · exact Or.inr ⟨heq2.symm, hidx y (List.mem_cons_of_mem _ hyes)⟩
    · rw [List.orderedInsert, if_neg hle]
      have hex : x.return_pct < e.return_pct := lt_of_not_le hle
      refine List.pairwise_cons.mpr
        ⟨?_, ih (fun f hf => hidx f (List.mem_cons_of_mem _ hf)) hes⟩
      intro y hy
      rcases (List.mem_orderedInsert _).mp hy with rfl | hyes
      · exact Or.inl hex
      · exact hRe y hyes

theorem rankedBefore_sortOptResults (l : List OptRecord)
    (h : l.Pairwise (fun a b => a.idx < b.idx)) :
    (sortOptResults l).Pairwise rankedBefore := by
  induction l with
  | nil => simp [sortOptResults]
  | cons x rest ih =>
    rcases List.pairwise_cons.mp h with ⟨hidx, hrest⟩
    unfold sortOptResults at *
    simp only [List.insertionSort]
    apply rankedBefore_orderedInsert
    · intro e he
      exact hidx e ((List.mem_insertionSort _).mp he)
    · exact ih hrest

/-- C5 as amended: the optimizer ranks by total return descending with
ties kept in enumeration order (the sort is stable; max drawdown plays no
role), the printed top-ten list consists of ranked records of the result
set, and the reported best combination has the maximal total return. -/
theorem optimizer_ranking_amended :
    ∀ l : List OptRecord, l.Pairwise (fun a b => a.idx < b.idx) →
      (sortOptResults l).Perm l ∧
      (sortOptResults l).Pairwise rankedBefore ∧
      (∀ r ∈ topResults l, r ∈ l) ∧
      (∀ b, bestResult l = Option.some b →
        b ∈ l ∧ ∀ r ∈ l, r.return_pct ≤ b.return_pct) := by
  intro l h
  have hperm : (sortOptResults l).Perm l := List.perm_insertionSort _ l
  have hpair := rankedBefore_sortOptResults l h
  refine ⟨hperm, hpair, ?_, ?_⟩
  · intro r hr
    exact hperm.mem_iff.mp (List.mem_of_mem_take hr)
  · intro b hb
    unfold bestResult at hb
    cases hsort : sortOptResults l with
    | nil => rw [hsort] at hb; exact absurd hb (by simp)
    | cons c rest =>
      rw [hsort] at hb
      simp only [List.head?_cons, Option.some.injEq] at hb
      subst hb
      constructor
      · exact hperm.mem_iff.mp (by rw [hsort]; simp)
      · intro r hr
        have hrs : r ∈ sortOptResults l := hperm.mem_iff.mpr hr
        rw [hsort] at hrs
        rcases List.mem_cons.mp hrs with rfl | hrrest
        · exact le_refl _
        · have := (List.pairwise_cons.mp (hsort ▸ hpair)).1 r hrrest
          rcases this with hlt | ⟨heq2, -⟩
          · exact hlt.le
          · exact heq2.ge

/-- Witness for C5 on a concrete two-record result set. -/
theorem optimizer_ranking_amended_witness :
    (⟨1, 21, 2, 3, 7, 0⟩ : OptRecord) ∈
        ([⟨0, 20, 2, 3, 5, 0⟩, ⟨1, 21, 2, 3, 7, 0⟩] : List OptRecord) ∧
      ∀ r ∈ ([⟨0, 20, 2, 3, 5, 0⟩, ⟨1, 21, 2, 3, 7, 0⟩] : List OptRecord),
        r.return_pct ≤ (⟨1, 21, 2, 3, 7, 0⟩ : OptRecord).return_pct :=
  (optimizer_ranking_amended [⟨0, 20, 2, 3, 5, 0⟩, ⟨1, 21, 2, 3, 7, 0⟩]
      (by decide)).2.2.2 ⟨1, 21, 2, 3, 7, 0⟩ (by decide)

/-! ## C6: the linear-interpolate repair policy -/

/-- Counterexample to the claimed `InsufficientData` failure: on a column
whose gap touches the left boundary, `handle_missing_data` with the
interpolate policy returns the data with the cell still missing and raises
nothing, while the claimed behaviour is a hard error. -/
theorem interpolate_boundary_refuted :
    DataCollector.interpolate_linear [Option.none, Option.some 2] =
        [Option.none, Option.some 2] ∧
      DataCollector.interpolate_claimed [Option.none, Option.some 2] =
        Except.error ("InsufficientData") :=
  ⟨rfl, rfl⟩

theorem interpolate_linear_getD (col : List (Option ℚ)) (i : ℕ)
    (h : i < col.length) :
    (DataCollector.interpolate_linear col).getD i Option.none =
      match col.getD i Option.none with
      | Option.some v => Option.some v
      | Option.none =>
        match DataCollector.prevValid col i, DataCollector.nextValid col i with
        | Option.some ja, Option.some kb =>
            Option.some (ja.2 + (kb.2 - ja.2) * ((i : ℚ) - (ja.1 : ℚ)) /
              ((kb.1 : ℚ) - (ja.1 : ℚ)))
        | Option.some ja, Option.none => Option.some ja.2
        | Option.none, _ => Option.none := by
  unfold DataCollector.interpolate_linear
  rw [List.getD_eq_getElem?_getD, List.getElem?_map, List.getElem?_range h]
  rfl

theorem prevValid_eq_none_iff (col : List (Option ℚ)) (i : ℕ) :
    DataCollector.prevValid col i = Option.none ↔
      ∀ j, j < i → col.getD j Option.none = Option.none := by
  unfold DataCollector.prevValid
  rw [List.getLast?_eq_none_iff, List.filterMap_eq_nil_iff]
  constructor
  · intro h j hj
    exact Option.map_eq_none'.mp (h j (List.mem_range.mpr hj))
  · intro h j hj
    exact Option.map_eq_none'.mpr (h j (List.mem_range.mp hj))

/-- C6 as amended: the interpolate repair never fails; it preserves the
column length; a cell stays missing exactly when it is missing and no
valid cell precedes it (a gap touching the left boundary); a missing cell
with valid neighbours on both sides becomes their linear interpolation;
and a missing cell after the last valid cell is filled with that last
valid value. -/
theorem interpolate_amended :
    ∀ col : List (Option ℚ),
      (DataCollector.interpolate_linear col).length = col.length ∧
      (∀ i, i < col.length →
        ((DataCollector.interpolate_linear col).getD i Option.none =
            Option.none ↔
          ∀ j, j ≤ i → col.getD j Option.none = Option.none)) ∧
      (∀ i ja kb, i < col.length → col.getD i Option.none = Option.none →
        DataCollector.prevValid col i = Option.some ja →
        DataCollector.nextValid col i = Option.some kb →
        (DataCollector.interpolate_linear col).getD i Option.none =
          Option.some (ja.2 + (kb.2 - ja.2) * ((i : ℚ) - (ja.1 : ℚ)) /
            ((kb.1 : ℚ) - (ja.1 : ℚ)))) ∧
      (∀ i ja, i < col.length → col.getD i Option.none = Option.none →
        DataCollector.prevValid col i = Option.some ja →
        DataCollector.nextValid col i = Option.none →
        (DataCollector.interpolate_linear col).getD i Option.none =
          Option.some ja.2) := by
  intro col
  refine ⟨by simp [DataCollector.interpolate_linear], ?_, ?_, ?_⟩
  · intro i hi
    rw [interpolate_linear_getD col i hi]
    cases hc : col.getD i Option.none with
    | some v =>
      constructor
      · intro h
        exact absurd h (by simp)
      · intro hall
        rw [hall i le_rfl] at hc
        exact absurd hc (by simp)
    | none =>
      cases hp : DataCollector.prevValid col i with
      | some ja =>
        cases hn : DataCollector.nextValid col i with
        | some kb =>
          constructor
          · intro h
            exact absurd h (by simp)
          · intro hall
            have hnone := (prevValid_eq_none_iff col i).mpr
              (fun j hj => hall j hj.le)
            rw [hp] at hnone
            exact absurd hnone (by simp)
        | none =>
          constructor
          · intro h
            exact absurd h (by simp)
          · intro hall
            have hnone := (prevValid_eq_none_iff col i).mpr
              (fun j hj => hall j hj.le)
            rw [hp] at hnone
            exact absurd hnone (by simp)
      | none =>
        constructor
        · intro _ j hj
          rcases lt_or_eq_of_le hj with hlt | rfl
          · exact (prevValid_eq_none_iff col i).mp hp j hlt
          · exact hc
        · intro _
          rfl
  · intro i ja kb hi hc hp hn
    rw [interpolate_linear_getD col i hi, hc, hp, hn]
  · intro i ja hi hc hp hn
    rw [interpolate_linear_getD col i hi, hc, hp, hn]

/-- Witness for C6: the leading missing cell of a concrete column stays
missing after the repair. -/
theorem interpolate_amended_witness :
    (DataCollector.interpolate_linear [Option.none, Option.none]).getD 0
        Option.none = Option.none :=
  ((interpolate_amended [Option.none, Option.none]).2.1 0 (by decide)).mpr
    (fun j hj => by
      cases Nat.le_zero.mp hj
      rfl)
